import Mathlib

/-!
Verification of the preprocessing-and-orchestration engine of
`run_pipeline.py`: the signal-conditioning chain (high-pass filter,
phase-shift correction, common-average referencing, bad-channel
detection/interpolation, shank-aware destriping, optional notch filtering),
the per-probe failure-isolated session loop with its resumability marker,
and the digital synchronization pulse extraction.

The recording transforms themselves live in the external `spikeinterface`
library; the chain is therefore embedded relative to a record `SIOps` of
those primitives, and the theorems quantify over it.  The wiring of the
chain — which intermediate recording each primitive receives, with which
arguments — is translated line by line from the source.
-/

set_option autoImplicit false

/-- One recorded channel: a stable identifier, a shank/group label and its
sample data (as in the source, channel order in the list is significant). -/
structure Channel where
  id : Nat
  group : Nat
  samples : List Int
deriving DecidableEq

/-- A multi-channel recording: the ordered collection of channels. -/
structure Recording where
  channels : List Channel
deriving DecidableEq

/-- `rec.get_channel_ids()` — the channel identifiers in recording order. -/
def channelIds (rec : Recording) : List Nat :=
  rec.channels.map (fun ch => ch.id)

/-- `np.unique(rec.get_property('group'))` — the distinct shank/group
labels of a recording (first-occurrence order; only the count and
membership matter here). -/
def groupLabels (rec : Recording) : List Nat :=
  (rec.channels.map (fun ch => ch.group)).dedup

/-- The label a classifier pass assigns to one channel
(`detect_bad_channels` labels: good / dead / noise / out). -/
inductive ChanLabel where
  | good : ChanLabel
  | dead : ChanLabel
  | noise : ChanLabel
  | out : ChanLabel
deriving DecidableEq, BEq

/-- The keyword arguments the source passes to `si.detect_bad_channels`:
`method` and `std_mad_threshold` are `none` when the call leaves the
detector's default in place, and the random seed is always given. -/
structure DetectArgs where
  method : Option String
  std_mad_threshold : Option Nat
  seed : Nat
deriving DecidableEq

/-- Boolean-mask indexing `ids[labels == lab]` (numpy): the identifiers at
the positions whose label equals `lab`. -/
def maskSelect (ids : List Nat) (labels : List ChanLabel) (lab : ChanLabel) : List Nat :=
  ((ids.zip labels).filter (fun pr => pr.2 == lab)).map (fun pr => pr.1)

/-- The `spikeinterface` primitives the conditioning chain calls.  They are
abstract here: every theorem about the chain holds for any interpretation
of these fields, in particular for the real library functions. -/
structure SIOps where
  highpass_filter : Recording → Recording
  phase_shift : Recording → Recording
  common_reference : Recording → Recording
  detect_bad_channels : DetectArgs → Recording → List Nat × List ChanLabel
  interpolate_bad_channels : Recording → List Nat → Recording
  highpass_spatial_filter : Recording → Recording
  notch_filter : Int → Int → Recording → Recording

/-- Modelled from the spec: `rec.split_by(property='group')` — a partition
of the recording into one sub-recording per distinct shank/group label, a
total disjoint cover of the channels (spec §3 ShankGroup, §4.3). -/
def split_by (rec : Recording) : List Recording :=
  (groupLabels rec).map (fun g => ⟨rec.channels.filter (fun ch => ch.group == g)⟩)

/-- Modelled from the spec: `si.aggregate_channels(recs, renamed_channel_ids=...)`
— re-merge sub-recordings into a single recording in concatenation order,
renaming the channels to the given identifier list (spec §4.3: re-merge
preserving original channel identity and order). -/
def aggregate_channels (recs : List Recording) (renamed : List Nat) : Recording :=
  ⟨(((recs.map Recording.channels).flatten).zip renamed).map
      (fun pr => { pr.1 with id := pr.2 })⟩

/-- The per-shank destriping path of the source (lines 166-173): split by
group, destripe each sub-recording, merge back with the original channel
identifiers. -/
def perShankDestripe (hsf : Recording → Recording) (rec : Recording) : Recording :=
  aggregate_channels ((split_by rec).map hsf) (channelIds rec)

/-- The destriping stage (source lines 161-178): per-shank when more than
one group label exists, otherwise the spatial filter on the whole
recording at once. -/
def destripeStage (hsf : Recording → Recording) (rec : Recording) : Recording :=
  if 1 < (groupLabels rec).length then perShankDestripe hsf rec else hsf rec

/-- All intermediate values of the conditioning chain, named after the
variables of the source. -/
structure CondResult where
  rec_filtered : Recording
  rec_shifted : Recording
  rec_comref : Recording
  detA : List Nat × List ChanLabel
  detB : List Nat × List ChanLabel
  dead_channel_ids : List Nat
  out_channel_ids : List Nat
  noisy_channel_ids : List Nat
  prec_dead_ch : ℚ
  prec_out_ch : ℚ
  prec_noise_ch : ℚ
  interp_target : List Nat
  rec_interpolated : Recording
  rec_destriped : Recording

/-- The signal-conditioning chain, translated from source lines 127-178:
high-pass filter, phase shift of the filtered signal, common reference of
the filtered signal, the two `detect_bad_channels` passes (default method
on the filtered signal with seed 42; `method='mad'`, `std_mad_threshold=3`,
seed 42 on the referenced signal), interpolation of the concatenated bad
ids over the phase-shifted signal, then shank-aware destriping. -/
def conditioningChain (ops : SIOps) (rec : Recording) : CondResult :=
  let rec_filtered := ops.highpass_filter rec
  let rec_shifted := ops.phase_shift rec_filtered
  let rec_comref := ops.common_reference rec_filtered
  let detA := ops.detect_bad_channels ⟨none, none, 42⟩ rec_filtered
  let prec_dead_ch : ℚ := ((detA.2.count ChanLabel.dead : ℚ) / (detA.2.length : ℚ))
  let dead_channel_ids := maskSelect (channelIds rec_filtered) detA.2 ChanLabel.dead
  let prec_out_ch : ℚ := ((detA.2.count ChanLabel.out : ℚ) / (detA.2.length : ℚ))
  let out_channel_ids := maskSelect (channelIds rec_filtered) detA.2 ChanLabel.out
  let detB := ops.detect_bad_channels ⟨some "mad", some 3, 42⟩ rec_comref
  let prec_noise_ch : ℚ := ((detB.2.count ChanLabel.noise : ℚ) / (detB.2.length : ℚ))
  let noisy_channel_ids := maskSelect (channelIds rec_comref) detB.2 ChanLabel.noise
  let interp_target := dead_channel_ids ++ noisy_channel_ids ++ out_channel_ids
  let rec_interpolated := ops.interpolate_bad_channels rec_shifted interp_target
  let rec_destriped := destripeStage ops.highpass_spatial_filter rec_interpolated
  ⟨rec_filtered, rec_shifted, rec_comref, detA, detB,
   dead_channel_ids, out_channel_ids, noisy_channel_ids,
   prec_dead_ch, prec_out_ch, prec_noise_ch,
   interp_target, rec_interpolated, rec_destriped⟩

/-- The per-probe `notch_filter.json` contents: parallel lists of
frequencies and quality factors. -/
structure NotchConfig where
  FREQ : List Int
  Q : List Int

/-- The notch stage (source lines 189-214): absent configuration passes the
destriped recording through unchanged; a present configuration is applied
by folding `si.notch_filter` over the zipped frequency/quality pairs, each
filter operating on the previous filter's output. -/
def notchStage (ops : SIOps) (cfg : Option NotchConfig) (rec_destriped : Recording) :
    Recording :=
  match cfg with
  | none => rec_destriped
  | some nf =>
      (nf.FREQ.zip nf.Q).foldl (fun r fq => ops.notch_filter fq.1 fq.2 r) rec_destriped

/-- `rec_final` of the source: the conditioned recording handed to the
sorter — the destriped recording, notch-filtered when a configuration
exists for the probe. -/
def rec_final (ops : SIOps) (cfg : Option NotchConfig) (rec : Recording) : Recording :=
  notchStage ops cfg (conditioningChain ops rec).rec_destriped

/-- What happens to one probe when the session loop reaches it, the three
branch conditions of the loop body (source lines 99-343): its canonical
output directory `root/<probe><id_str>` already exists (skip branch, lines
102-107); `si.run_sorter` raises with the given message (except branch,
lines 226-238); or the body runs to completion (lines 109-343). -/
inductive ProbeRun where
  | alreadyProcessed : ProbeRun
  | sorterFails : String → ProbeRun
  | succeeds : ProbeRun
deriving DecidableEq

/-- The observable actions of the session loop, indexed by probe position:
entering a probe's iteration (line 100), running the conditioning chain
and sync tasks (lines 109-214), `run_sorter` creating its output folder
(lines 219-225), writing `error_log.txt` with the failure text (lines
230-232), `shutil.rmtree` of the sorter output folder (line 235), setting
`probe_done[i] = True` (lines 106 and 342), and deleting
`process_me.flag` (line 347). -/
inductive Event where
  | startProbe : Nat → Event
  | runConditioning : Nat → Event
  | createSorterDir : Nat → Event
  | writeErrorLog : Nat → String → Event
  | removeSorterDir : Nat → Event
  | probeDone : Nat → Event
  | removeMarker : Event
deriving DecidableEq

/-- The actions one loop iteration emits for probe `i`, by branch:
the skip branch only marks the probe done; the sorter-failure branch
conditions, starts the sorter, logs the error, removes the sorter output
directory and hits `continue` without marking the probe done; the success
branch conditions, sorts and marks the probe done. -/
def probeEvents (i : Nat) : ProbeRun → List Event
  | ProbeRun.alreadyProcessed => [Event.startProbe i, Event.probeDone i]
  | ProbeRun.sorterFails err =>
      [Event.startProbe i, Event.runConditioning i, Event.createSorterDir i,
       Event.writeErrorLog i err, Event.removeSorterDir i]
  | ProbeRun.succeeds =>
      [Event.startProbe i, Event.runConditioning i, Event.createSorterDir i,
       Event.probeDone i]

/-- The actions of the probe loop from position `s` on (the
`for i, probe_path in enumerate(probes)` loop, lines 99-343). -/
def probesEvents : List ProbeRun → Nat → List Event
  | [], _ => []
  | r :: rest, s => probeEvents s r ++ probesEvents rest (s + 1)

/-- The final value of `probe_done[i]`: `True` exactly for the skip branch
(line 106) and the completed body (line 342); the sorter except branch
leaves it `False`. -/
def probeDoneFlag : ProbeRun → Bool
  | ProbeRun.alreadyProcessed => true
  | ProbeRun.sorterFails _ => false
  | ProbeRun.succeeds => true

/-- The whole session: the probe loop followed by the conditional marker
deletion `if np.sum(probe_done) == len(probes): os.remove(...)` (source
lines 345-347). -/
def sessionEvents (runs : List ProbeRun) : List Event :=
  probesEvents runs 0 ++
    (if (runs.map probeDoneFlag).count true = runs.length then [Event.removeMarker] else [])

/-- Replay step for probe `i`'s sorter output directory: creation makes it
present, removal makes it absent, every other action leaves it alone. -/
def dirStep (i : Nat) (acc : Bool) : Event → Bool
  | Event.createSorterDir j => if j = i then true else acc
  | Event.removeSorterDir j => if j = i then false else acc
  | _ => acc

/-- Whether probe `i`'s sorter output directory exists after replaying an
action trace (it does not exist before the session starts). -/
def sorterDirPresent (events : List Event) (i : Nat) : Bool :=
  events.foldl (dirStep i) false

/-- The spec's notion of a terminal probe state (§3 ProbeState): `done` —
processed to completion or skipped as already processed — and
`sorting-failed` both count as terminal. -/
def specTerminal : ProbeRun → Bool
  | ProbeRun.alreadyProcessed => true
  | ProbeRun.sorterFails _ => true
  | ProbeRun.succeeds => true

/-- `int(ch_name[-1])` of the source (line 317): the digit value of the
last character of a wiring key. -/
def lastDigit (s : String) : Nat :=
  match s.data.getLast? with
  | some ch => ch.toNat - 48
  | none => 0

/-- `sync_times[(sync_channels == line) & (sync_polarities == 1)]` (source
line 317): the event times at the indices whose channel equals `line` and
whose polarity equals `1`, over the three parallel arrays. -/
def maskPulses : List Int → List Int → List Nat → Nat → List Int
  | t :: ts, p :: ps, c :: cs, line =>
      if c = line ∧ p = 1 then t :: maskPulses ts ps cs line
      else maskPulses ts ps cs line
  | _, _, _, _ => []

/-- The digital-sync extraction loop (source lines 314-319): for every
entry of `SYNC_WIRING_DIGITAL` except the `imec_sync` reference line, emit
a `<logical name>.times.npy` file holding the rising-edge times of the
channel named by the key's last digit. -/
def syncFiles (wiring : List (String × String)) (t p : List Int) (c : List Nat) :
    List (String × List Int) :=
  wiring.filterMap (fun e =>
    if e.1 = "imec_sync" then none
    else some (e.2 ++ ".times.npy", maskPulses t p c (lastDigit e.1)))

/-- A two-channel single-shank recording used to evaluate the chain on
concrete input. -/
def demoRec : Recording := ⟨[⟨0, 0, [1]⟩, ⟨1, 0, [2]⟩]⟩

/-- A concrete interpretation of the library primitives under which the
two classifier inputs are distinguishable: common referencing negates the
samples, and the detector marks a channel dead exactly when its first
sample is 1. -/
def demoOps : SIOps where
  highpass_filter := fun r => r
  phase_shift := fun r => r
  common_reference := fun r =>
    ⟨r.channels.map (fun ch => { ch with samples := ch.samples.map (fun x => -x) })⟩
  detect_bad_channels := fun _ r =>
    ([], r.channels.map (fun ch =>
        if ch.samples.head? = some 1 then ChanLabel.dead else ChanLabel.good))
  interpolate_bad_channels := fun r _ => r
  highpass_spatial_filter := fun r => r
  notch_filter := fun _ _ r => r

/-- A concrete channel-count-preserving destriping filter (doubles every
sample) used to evaluate the single-shank equivalence on concrete input. -/
def demoHsf : Recording → Recording :=
  fun r => ⟨r.channels.map (fun ch => { ch with samples := ch.samples.map (fun x => 2 * x) })⟩

/-- Membership in the probe loop's action trace: an action occurs exactly
when some probe's iteration emits it. -/
theorem mem_probesEvents {e : Event} :
    ∀ (runs : List ProbeRun) (s : Nat),
      e ∈ probesEvents runs s ↔
        ∃ j r, runs.get? j = some r ∧ e ∈ probeEvents (s + j) r := by
  intro runs
  induction runs with
  | nil => intro s; simp [probesEvents]
  | cons hd tl ih =>
    intro s
    simp only [probesEvents, List.mem_append, ih (s + 1)]
    constructor
    · rintro (h | ⟨j, r, hr, he⟩)
      · exact ⟨0, hd, rfl, by simpa using h⟩
      · refine ⟨j + 1, r, by simpa using hr, ?_⟩
        have harith : s + (j + 1) = s + 1 + j := by omega
        rw [harith]; exact he
    · rintro ⟨j, r, hr, he⟩
      cases j with
      | zero =>
        left
        simp only [List.get?] at hr
        cases hr
        simpa using he
      | succ j' =>
        right
        refine ⟨j', r, by simpa using hr, ?_⟩
        have harith : s + 1 + j' = s + (j' + 1) := by omega
        rw [harith]; exact he

/-- No iteration of the probe loop deletes the session marker; only the
final check after the loop can. -/
theorem removeMarker_not_mem_probeEvents (i : Nat) (r : ProbeRun) :
    Event.removeMarker ∉ probeEvents i r := by
  cases r <;> simp [probeEvents]

/-- The session marker is deleted exactly when `probe_done` ended up all
`True`, i.e. when every probe was skipped as already processed or ran to
completion. -/
theorem marker_mem_iff (runs : List ProbeRun) :
    Event.removeMarker ∈ sessionEvents runs ↔ ∀ r ∈ runs, probeDoneFlag r = true := by
  unfold sessionEvents
  rw [List.mem_append]
  have hleft : Event.removeMarker ∉ probesEvents runs 0 := by
    rw [mem_probesEvents]
    rintro ⟨j, r, _, he⟩
    exact removeMarker_not_mem_probeEvents _ _ he
  constructor
  · rintro (h | h)
    · exact absurd h hleft
    · by_cases hc : (runs.map probeDoneFlag).count true = runs.length
      · intro r hr
        have hlen : (runs.map probeDoneFlag).count true = (runs.map probeDoneFlag).length := by
          rw [hc, List.length_map]
        have hall := List.count_eq_length.mp hlen
        exact (hall (probeDoneFlag r) (List.mem_map_of_mem probeDoneFlag hr)).symm
      · simp [hc] at h
  · intro h
    right
    have hc : (runs.map probeDoneFlag).count true = runs.length := by
      have hlen : (runs.map probeDoneFlag).count true = (runs.map probeDoneFlag).length := by
        apply List.count_eq_length.mpr
        intro b hb
        rcases List.mem_map.mp hb with ⟨r, hr, hrb⟩
        rw [← hrb]; exact (h r hr).symm
      rw [hlen, List.length_map]
    simp [hc]

/-- A probe iteration never touches another probe's sorter output
directory. -/
theorem foldl_dirStep_probeEvents_ne (i j : Nat) (h : j ≠ i) (r : ProbeRun) (b : Bool) :
    (probeEvents j r).foldl (dirStep i) b = b := by
  cases r <;> simp [probeEvents, dirStep, h]

/-- Probe iterations from position `s` on never touch the sorter output
directory of an earlier probe `i < s`. -/
theorem foldl_dirStep_probesEvents_lt (i : Nat) :
    ∀ (runs : List ProbeRun) (s : Nat) (b : Bool), i < s →
      (probesEvents runs s).foldl (dirStep i) b = b := by
  intro runs
  induction runs with
  | nil => intro s b _; rfl
  | cons hd tl ih =>
    intro s b hlt
    rw [probesEvents, List.foldl_append, foldl_dirStep_probeEvents_ne i s (by omega) hd b]
    exact ih (s + 1) b (by omega)

/-- After the probe loop, a sorter-failed probe's output directory is
absent: its own iteration removed it and no later iteration recreates it. -/
theorem foldl_dirStep_after_fail :
    ∀ (runs : List ProbeRun) (k s : Nat) (err : String) (b : Bool),
      runs.get? k = some (ProbeRun.sorterFails err) →
      (probesEvents runs s).foldl (dirStep (s + k)) b = false := by
  intro runs
  induction runs with
  | nil => intro k s err b h; simp at h
  | cons hd tl ih =>
    intro k s err b h
    cases k with
    | zero =>
      simp only [List.get?] at h
      injection h with h
      subst h
      rw [probesEvents, List.foldl_append]
      have hinner :
          (probeEvents s (ProbeRun.sorterFails err)).foldl (dirStep (s + 0)) b = false := by
        simp [probeEvents, dirStep]
      rw [hinner]
      exact foldl_dirStep_probesEvents_lt (s + 0) tl (s + 1) false (by omega)
    | succ k' =>
      rw [probesEvents, List.foldl_append]
      rw [foldl_dirStep_probeEvents_ne (s + (k' + 1)) s (by omega) hd b]
      have harith : s + (k' + 1) = s + 1 + k' := by omega
      rw [harith]
      exact ih k' (s + 1) err b (by simpa using h)

/-- Replaying a whole session trace leaves a sorter-failed probe's output
directory absent. -/
theorem sorterDir_absent_after_fail (runs : List ProbeRun) (i : Nat) (err : String)
    (h : runs.get? i = some (ProbeRun.sorterFails err)) :
    sorterDirPresent (sessionEvents runs) i = false := by
  unfold sorterDirPresent sessionEvents
  rw [List.foldl_append]
  have h0 : (probesEvents runs 0).foldl (dirStep i) false = false := by
    have hf := foldl_dirStep_after_fail runs i 0 err false h
    simpa using hf
  rw [h0]
  by_cases hc : (runs.map probeDoneFlag).count true = runs.length <;> simp [hc, dirStep]

/-- Renaming a channel list to its own identifiers is the identity. -/
theorem rename_self (l : List Channel) :
    ((l.zip (l.map (fun ch => ch.id))).map (fun pr => { pr.1 with id := pr.2 })) = l := by
  induction l with
  | nil => rfl
  | cons a t ih => simp [ih]

/-- Characterization of the rising-edge mask selection: a time is emitted
exactly when some sample index carries it on the requested channel with
polarity `+1`. -/
theorem mem_maskPulses :
    ∀ (t p : List Int) (c : List Nat) (line : Nat) (x : Int),
      x ∈ maskPulses t p c line ↔
        ∃ k, t.get? k = some x ∧ c.get? k = some line ∧ p.get? k = some 1 := by
  intro t
  induction t with
  | nil => intro p c line x; simp [maskPulses]
  | cons a ts ih =>
    intro p c line x
    cases p with
    | nil => simp [maskPulses]
    | cons b ps =>
      cases c with
      | nil => simp [maskPulses]
      | cons d cs =>
        by_cases hcond : d = line ∧ b = 1
        · rw [show maskPulses (a :: ts) (b :: ps) (d :: cs) line
              = a :: maskPulses ts ps cs line by simp [maskPulses, hcond]]
          simp only [List.mem_cons, ih ps cs line x]
          constructor
          · rintro (rfl | ⟨k, h1, h2, h3⟩)
            · exact ⟨0, rfl, by simp [hcond.1], by simp [hcond.2]⟩
            · exact ⟨k + 1, by simpa using h1, by simpa using h2, by simpa using h3⟩
          · rintro ⟨k, h1, h2, h3⟩
            cases k with
            | zero =>
              left
              injection h1 with h1
              exact h1.symm
            | succ k' =>
              right
              exact ⟨k', by simpa using h1, by simpa using h2, by simpa using h3⟩
        · rw [show maskPulses (a :: ts) (b :: ps) (d :: cs) line
              = maskPulses ts ps cs line by simp [maskPulses, hcond]]
          rw [ih ps cs line x]
          constructor
          · rintro ⟨k, h1, h2, h3⟩
            exact ⟨k + 1, by simpa using h1, by simpa using h2, by simpa using h3⟩
          · rintro ⟨k, h1, h2, h3⟩
            cases k with
            | zero =>
              exfalso
              apply hcond
              injection h2 with h2
              injection h3 with h3
              exact ⟨h2, h3⟩
            | succ k' =>
              exact ⟨k', by simpa using h1, by simpa using h2, by simpa using h3⟩

/-- Claim C1, counterexample: in a session whose first probe fails in the
sorter and whose second succeeds, every probe has reached a terminal state
in the spec's sense (done or sorting-failed), yet the session marker is
not deleted — the except branch leaves `probe_done[i]` False, so the
claimed "deleted iff every probe terminal" equivalence is false. -/
theorem marker_kept_despite_all_terminal :
    ¬ (Event.removeMarker ∈ sessionEvents [ProbeRun.sorterFails "e", ProbeRun.succeeds] ↔
        ∀ r ∈ [ProbeRun.sorterFails "e", ProbeRun.succeeds], specTerminal r = true) := by
  decide

/-- Claim C1, amended: the session marker is deleted if and only if every
enumerated probe is done in the code's sense — skipped as already
processed or processed to completion.  A probe whose sorter raised does
not count, so a session containing one keeps its marker. -/
theorem marker_removed_iff_all_done (runs : List ProbeRun) :
    Event.removeMarker ∈ sessionEvents runs ↔ ∀ r ∈ runs, probeDoneFlag r = true :=
  marker_mem_iff runs

/-- Claim C2: when probe `i`'s sorter invocation raises, the failure text
is written to that probe's error log, the probe's sorter output directory
is absent after the session, and every probe of the session is still
visited — a single sorter failure never aborts the session. -/
theorem sorter_failure_isolated (runs : List ProbeRun) (i : Nat) (err : String)
    (h : runs.get? i = some (ProbeRun.sorterFails err)) :
    Event.writeErrorLog i err ∈ sessionEvents runs
    ∧ sorterDirPresent (sessionEvents runs) i = false
    ∧ ∀ j, j < runs.length → Event.startProbe j ∈ sessionEvents runs := by
  refine ⟨?_, sorterDir_absent_after_fail runs i err h, ?_⟩
  · unfold sessionEvents
    rw [List.mem_append]
    left
    rw [mem_probesEvents]
    exact ⟨i, ProbeRun.sorterFails err, h, by simp [probeEvents]⟩
  · intro j hj
    unfold sessionEvents
    rw [List.mem_append]
    left
    rw [mem_probesEvents]
    refine ⟨j, runs.get ⟨j, hj⟩, List.get?_eq_get hj, ?_⟩
    cases runs.get ⟨j, hj⟩ <;> simp [probeEvents]

/-- Claim C2, witness: a concrete two-probe session whose first probe
fails in the sorter. -/
theorem sorter_failure_isolated_witness :
    Event.writeErrorLog 0 "boom"
        ∈ sessionEvents [ProbeRun.sorterFails "boom", ProbeRun.succeeds]
    ∧ sorterDirPresent (sessionEvents [ProbeRun.sorterFails "boom", ProbeRun.succeeds]) 0
        = false
    ∧ ∀ j, j < [ProbeRun.sorterFails "boom", ProbeRun.succeeds].length →
        Event.startProbe j ∈ sessionEvents [ProbeRun.sorterFails "boom", ProbeRun.succeeds] :=
  sorter_failure_isolated [ProbeRun.sorterFails "boom", ProbeRun.succeeds] 0 "boom" rfl

/-- Claim C3: a probe whose canonical output directory already exists is
skipped — neither the conditioning chain nor the sorter runs for it — and
it is counted as done; and the marker is only removed once every probe is
done (hence terminal). -/
theorem already_processed_probe_skipped (runs : List ProbeRun) (i : Nat)
    (h : runs.get? i = some ProbeRun.alreadyProcessed) :
    Event.runConditioning i ∉ sessionEvents runs
    ∧ Event.createSorterDir i ∉ sessionEvents runs
    ∧ Event.probeDone i ∈ sessionEvents runs
    ∧ (Event.removeMarker ∈ sessionEvents runs →
        ∀ r ∈ runs, probeDoneFlag r = true ∧ specTerminal r = true) := by
  refine ⟨?_, ?_, ?_, ?_⟩
  · intro hmem
    unfold sessionEvents at hmem
    rw [List.mem_append] at hmem
    rcases hmem with hmem | hmem
    · rw [mem_probesEvents] at hmem
      rcases hmem with ⟨j, r, hj, he⟩
      cases r with
      | alreadyProcessed => simp [probeEvents] at he
      | sorterFails e =>
        simp [probeEvents] at he
        subst he
        rw [h] at hj
        cases hj
      | succeeds =>
        simp [probeEvents] at he
        subst he
        rw [h] at hj
        cases hj
    · by_cases hc : (runs.map probeDoneFlag).count true = runs.length <;> simp [hc] at hmem
  · intro hmem
    unfold sessionEvents at hmem
    rw [List.mem_append] at hmem
    rcases hmem with hmem | hmem
    · rw [mem_probesEvents] at hmem
      rcases hmem with ⟨j, r, hj, he⟩
      cases r with
      | alreadyProcessed => simp [probeEvents] at he
      | sorterFails e =>
        simp [probeEvents] at he
        subst he
        rw [h] at hj
        cases hj
      | succeeds =>
        simp [probeEvents] at he
        subst he
        rw [h] at hj
        cases hj
    · by_cases hc : (runs.map probeDoneFlag).count true = runs.length <;> simp [hc] at hmem
  · unfold sessionEvents
    rw [List.mem_append]
    left
    rw [mem_probesEvents]
    exact ⟨i, ProbeRun.alreadyProcessed, h, by simp [probeEvents]⟩
  · intro hm r hr
    exact ⟨(marker_mem_iff runs).mp hm r hr, by cases r <;> rfl⟩

/-- Claim C3, witness: a concrete session whose second probe was already
processed by an earlier run. -/
theorem already_processed_probe_skipped_witness :
    Event.runConditioning 1 ∉ sessionEvents [ProbeRun.succeeds, ProbeRun.alreadyProcessed]
    ∧ Event.createSorterDir 1 ∉ sessionEvents [ProbeRun.succeeds, ProbeRun.alreadyProcessed]
    ∧ Event.probeDone 1 ∈ sessionEvents [ProbeRun.succeeds, ProbeRun.alreadyProcessed]
    ∧ (Event.removeMarker ∈ sessionEvents [ProbeRun.succeeds, ProbeRun.alreadyProcessed] →
        ∀ r ∈ [ProbeRun.succeeds, ProbeRun.alreadyProcessed],
          probeDoneFlag r = true ∧ specTerminal r = true) :=
  already_processed_probe_skipped [ProbeRun.succeeds, ProbeRun.alreadyProcessed] 1 rfl

/-- Claim C4: in the conditioning chain the phase shift is applied to the
high-pass-filtered signal, the common-average reference is computed from
the filtered (not the phase-shifted) signal as an independent branch, and
bad-channel interpolation is applied to the phase-shifted signal. -/
theorem conditioning_chain_dataflow (ops : SIOps) (rec : Recording) :
    (conditioningChain ops rec).rec_shifted = ops.phase_shift (ops.highpass_filter rec)
    ∧ (conditioningChain ops rec).rec_comref = ops.common_reference (ops.highpass_filter rec)
    ∧ (conditioningChain ops rec).rec_interpolated
        = ops.interpolate_bad_channels (conditioningChain ops rec).rec_shifted
            (conditioningChain ops rec).interp_target :=
  ⟨rfl, rfl, rfl⟩

/-- Claim C5: the channel identifiers handed to bad-channel interpolation
are exactly the union of the dead, noisy and outside-brain identifier
sets, and interpolation receives exactly that list over the phase-shifted
signal — no other channel is targeted. -/
theorem interpolation_target_is_union (ops : SIOps) (rec : Recording) :
    (∀ x : Nat,
        x ∈ (conditioningChain ops rec).interp_target ↔
          (x ∈ (conditioningChain ops rec).dead_channel_ids
            ∨ x ∈ (conditioningChain ops rec).noisy_channel_ids
            ∨ x ∈ (conditioningChain ops rec).out_channel_ids))
    ∧ (conditioningChain ops rec).rec_interpolated
        = ops.interpolate_bad_channels (conditioningChain ops rec).rec_shifted
            (conditioningChain ops rec).interp_target := by
  refine ⟨?_, rfl⟩
  intro x
  simp [conditioningChain, List.mem_append]

/-- Claim C6: the classifier runs two passes, both seeded with the fixed
constant 42 — the default-method pass over the filtered signal, from whose
labels the dead and outside-brain identifier sets (and their reported
fractions) are derived, and the `mad` pass with threshold 3 over the
common-referenced signal, from whose labels the noisy set (and its
fraction) is derived. -/
theorem bad_channel_two_pass_detection (ops : SIOps) (rec : Recording) :
    (conditioningChain ops rec).detA
        = ops.detect_bad_channels ⟨none, none, 42⟩ (conditioningChain ops rec).rec_filtered
    ∧ (conditioningChain ops rec).detB
        = ops.detect_bad_channels ⟨some "mad", some 3, 42⟩ (conditioningChain ops rec).rec_comref
    ∧ (conditioningChain ops rec).dead_channel_ids
        = maskSelect (channelIds (conditioningChain ops rec).rec_filtered)
            (conditioningChain ops rec).detA.2 ChanLabel.dead
    ∧ (conditioningChain ops rec).out_channel_ids
        = maskSelect (channelIds (conditioningChain ops rec).rec_filtered)
            (conditioningChain ops rec).detA.2 ChanLabel.out
    ∧ (conditioningChain ops rec).noisy_channel_ids
        = maskSelect (channelIds (conditioningChain ops rec).rec_comref)
            (conditioningChain ops rec).detB.2 ChanLabel.noise
    ∧ (conditioningChain ops rec).prec_dead_ch
        = ((conditioningChain ops rec).detA.2.count ChanLabel.dead : ℚ)
            / ((conditioningChain ops rec).detA.2.length : ℚ)
    ∧ (conditioningChain ops rec).prec_out_ch
        = ((conditioningChain ops rec).detA.2.count ChanLabel.out : ℚ)
            / ((conditioningChain ops rec).detA.2.length : ℚ)
    ∧ (conditioningChain ops rec).prec_noise_ch
        = ((conditioningChain ops rec).detB.2.count ChanLabel.noise : ℚ)
            / ((conditioningChain ops rec).detB.2.length : ℚ) :=
  ⟨rfl, rfl, rfl, rfl, rfl, rfl, rfl, rfl⟩

/-- Claim C7, counterexample: the data-model sentence has the two passes
swapped.  Under a concrete interpretation where referencing changes the
signal, the dead/outside-brain pass demonstrably receives the filtered
signal, not the common-average-referenced one. -/
theorem data_model_pass_assignment_counterexample :
    ¬ ((conditioningChain demoOps demoRec).detA
          = demoOps.detect_bad_channels ⟨none, none, 42⟩
              (conditioningChain demoOps demoRec).rec_comref
        ∧ (conditioningChain demoOps demoRec).detB
          = demoOps.detect_bad_channels ⟨some "mad", some 3, 42⟩
              (conditioningChain demoOps demoRec).rec_filtered) := by
  intro hcl
  exact absurd hcl.1 (by decide)

/-- Claim C7, amended: the dead/outside-brain pass runs on the filtered
signal with the detector's default method, and the noisy pass runs on the
common-average-referenced signal with the MAD method — the assignment
stated in the spec's component-design section, matching the code. -/
theorem classifier_pass_assignment_amended (ops : SIOps) (rec : Recording) :
    (conditioningChain ops rec).detA
        = ops.detect_bad_channels ⟨none, none, 42⟩ (conditioningChain ops rec).rec_filtered
    ∧ (conditioningChain ops rec).detB
        = ops.detect_bad_channels ⟨some "mad", some 3, 42⟩
            (conditioningChain ops rec).rec_comref :=
  ⟨rfl, rfl⟩

/-- Claim C8: for a recording whose channels carry exactly one group
label, the per-shank destriping path — split by group, destripe the one
group, re-merge under the original channel identifiers — coincides with
applying the spatial filter to the whole recording directly, which is also
what the destriping stage's single-shank branch does. -/
theorem single_shank_destripe_equiv (hsf : Recording → Recording) (rec : Recording)
    (hg : (groupLabels rec).length = 1)
    (hid : channelIds (hsf rec) = channelIds rec) :
    perShankDestripe hsf rec = hsf rec ∧ destripeStage hsf rec = hsf rec := by
  obtain ⟨g, hdg⟩ := List.length_eq_one.mp hg
  have hall : ∀ ch ∈ rec.channels, ch.group = g := by
    intro ch hch
    have hmem : ch.group ∈ groupLabels rec := by
      unfold groupLabels
      rw [List.mem_dedup]
      exact List.mem_map_of_mem _ hch
    rw [hdg] at hmem
    simpa using hmem
  have hfilter : rec.channels.filter (fun ch => ch.group == g) = rec.channels := by
    apply List.filter_eq_self.mpr
    intro ch hch
    simp [hall ch hch]
  have hsplit : split_by rec = [rec] := by
    unfold split_by
    rw [hdg]
    simp [hfilter]
  have hper : perShankDestripe hsf rec = hsf rec := by
    unfold perShankDestripe
    rw [hsplit]
    unfold aggregate_channels
    rw [← hid]
    unfold channelIds
    simp only [List.map, List.flatten, List.append_nil]
    rw [rename_self]
  refine ⟨hper, ?_⟩
  unfold destripeStage
  rw [hg]
  simp

/-- Claim C8, witness: a concrete two-channel single-shank recording and a
concrete identifier-preserving spatial filter. -/
theorem single_shank_destripe_equiv_witness :
    perShankDestripe demoHsf demoRec = demoHsf demoRec
    ∧ destripeStage demoHsf demoRec = demoHsf demoRec :=
  single_shank_destripe_equiv demoHsf demoRec (by decide) (by decide)

/-- Claim C9: without a notch configuration the notch stage is the
identity — the final conditioned recording is the destriped recording
unchanged — and with a configuration the (frequency, quality) pairs are
applied strictly sequentially in list order, each filter operating on the
previous filter's output. -/
theorem notch_stage_identity_and_sequential (ops : SIOps) :
    (∀ rec : Recording, rec_final ops none rec = (conditioningChain ops rec).rec_destriped)
    ∧ (∀ rec : Recording, notchStage ops none rec = rec)
    ∧ ∀ (f q : Int) (fs qs : List Int) (rec : Recording),
        notchStage ops (some ⟨f :: fs, q :: qs⟩) rec
          = notchStage ops (some ⟨fs, qs⟩) (ops.notch_filter f q rec) := by
  refine ⟨fun rec => rfl, fun rec => rfl, fun f q fs qs rec => ?_⟩
  simp [notchStage]

/-- Claim C10: for every wiring entry other than the `imec_sync` reference
line, the emitted event-time file holds exactly the times whose channel
matches the line and whose polarity is +1 — and prepending the reference
line to the wiring emits no additional file. -/
theorem sync_polarity_filter (w : List (String × String)) (t p : List Int) (c : List Nat) :
    (∀ key logical, (key, logical) ∈ w → key ≠ "imec_sync" →
        ((logical ++ ".times.npy", maskPulses t p c (lastDigit key)) ∈ syncFiles w t p c
          ∧ ∀ x : Int, x ∈ maskPulses t p c (lastDigit key) ↔
              ∃ k, t.get? k = some x ∧ c.get? k = some (lastDigit key) ∧ p.get? k = some 1))
    ∧ ∀ logical, syncFiles (("imec_sync", logical) :: w) t p c = syncFiles w t p c := by
  constructor
  · intro key logical hmem hne
    constructor
    · unfold syncFiles
      rw [List.mem_filterMap]
      exact ⟨(key, logical), hmem, by simp [hne]⟩
    · intro x
      exact mem_maskPulses t p c (lastDigit key) x
  · intro logical
    simp [syncFiles]

/-- Claim C10, witness: a concrete wiring with the reference line and one
digital line, and concrete sync arrays with mixed polarities. -/
theorem sync_polarity_filter_witness :
    (("frame2ttl" ++ ".times.npy",
        maskPulses [10, 20, 30] [1, -1, 1] [1, 1, 2] (lastDigit "nidq_d1"))
       ∈ syncFiles [("imec_sync", "ref"), ("nidq_d1", "frame2ttl")]
           [10, 20, 30] [1, -1, 1] [1, 1, 2])
    ∧ ((10 : Int) ∈ maskPulses [10, 20, 30] [1, -1, 1] [1, 1, 2] (lastDigit "nidq_d1")) := by
  have h := sync_polarity_filter [("imec_sync", "ref"), ("nidq_d1", "frame2ttl")]
      [10, 20, 30] [1, -1, 1] [1, 1, 2]
  have h1 := h.1 "nidq_d1" "frame2ttl" (by decide) (by decide)
  exact ⟨h1.1, (h1.2 10).mpr ⟨0, rfl, by decide, rfl⟩⟩
